import Mathlib

/-
Shallow embedding of the rule-based sentiment analyzer of
`sentimetric/sentiment.py` (class `Analyzer`), over exact rationals.
Python floats become `ℚ`; Python strings become Lean `String`
(both are sequences of Unicode code points).  The lexicon tables,
the tokenizer, the scoring loop, the emoji pass, the punctuation
adjustment and the normalizer are translated one-for-one from the
source.  `round` with 4 digits is modelled as round-half-to-even
on the exact rational, matching Python's banker's rounding.
-/

namespace Sentimetric

/-- Result record produced by the rule-based analyzer
(`SentimentResult` in the source; the LLM-only optional fields are
never populated by the rule-based path and are omitted). -/
structure SentimentResult where
  polarity : ℚ
  category : String
  confidence : ℚ
  subjectivity : ℚ
  method : String
deriving DecidableEq, Repr

/-- `Analyzer.positive_words`: base positive lexicon with intensity scores. -/
def positive_words : List (String × ℚ) := [
  ("amazing", 0.9), ("awesome", 0.9), ("excellent", 0.9), ("perfect", 0.9),
  ("outstanding", 0.9), ("incredible", 0.9), ("fantastic", 0.9), ("brilliant", 0.9),
  ("wonderful", 0.9), ("spectacular", 0.9), ("phenomenal", 0.9), ("superb", 0.9),
  ("great", 0.7), ("good", 0.6), ("nice", 0.5), ("love", 0.8), ("like", 0.5),
  ("enjoy", 0.6), ("helpful", 0.6), ("useful", 0.6), ("cool", 0.6),
  ("impressive", 0.7), ("beautiful", 0.7), ("happy", 0.7), ("glad", 0.6),
  ("thanks", 0.6), ("thank", 0.6), ("best", 0.8)]

/-- `Analyzer.negative_words`: base negative lexicon. -/
def negative_words : List (String × ℚ) := [
  ("terrible", -0.9), ("horrible", -0.9), ("awful", -0.9), ("disgusting", -0.9),
  ("pathetic", -0.9), ("useless", -0.8), ("waste", -0.8), ("garbage", -0.8),
  ("trash", -0.8), ("worst", -0.9), ("hate", -0.8), ("disaster", -0.8),
  ("bad", -0.6), ("poor", -0.6), ("wrong", -0.5), ("disappointing", -0.7),
  ("disappointed", -0.7), ("boring", -0.6), ("confusing", -0.5), ("confused", -0.5),
  ("sucks", -0.7), ("shit", -0.7), ("crap", -0.7)]

/-- `Analyzer.slang_positive`: slang lexicon, active only in a
positive context (see `contextPositive`). -/
def slang_positive : List (String × ℚ) := [
  ("insane", 0.8), ("crazy", 0.7), ("sick", 0.8), ("fire", 0.9),
  ("lit", 0.8), ("dope", 0.7), ("goat", 0.9), ("beast", 0.8),
  ("savage", 0.7), ("slaps", 0.8), ("vibes", 0.6), ("based", 0.6)]

/-- `Analyzer.intensifiers`. -/
def intensifiers : List (String × ℚ) := [
  ("very", 1.3), ("really", 1.3), ("extremely", 1.5), ("absolutely", 1.5),
  ("incredibly", 1.5), ("so", 1.2), ("super", 1.4), ("ultra", 1.4)]

/-- `Analyzer.diminishers`. -/
def diminishers : List (String × ℚ) := [
  ("slightly", 0.5), ("somewhat", 0.5), ("fairly", 0.6), ("rather", 0.6),
  ("pretty", 0.7), ("quite", 0.7), ("kinda", 0.5), ("sorta", 0.5)]

/-- `Analyzer.negations` (the contraction entries contain an
apostrophe, written `\x27` here). -/
def negations : List String := [
  "not", "no", "never", "neither", "nobody", "nothing",
  "don\x27t", "doesn\x27t", "didn\x27t", "can\x27t", "won\x27t", "shouldn\x27t",
  "isn\x27t", "aren\x27t", "wasn\x27t", "weren\x27t", "hasn\x27t", "haven\x27t",
  "without", "lack"]

/-- `Analyzer.emoji_positive`.  Keys are the Python dict keys verbatim;
note the red-heart key is the two-code-point string U+2764 U+FE0F. -/
def emoji_positive : List (String × ℚ) := [
  ("😊", 0.7), ("😀", 0.7), ("😃", 0.7), ("😄", 0.7), ("😁", 0.7),
  ("😍", 0.9), ("🥰", 0.9), ("😘", 0.8), ("❤️", 0.8), ("💕", 0.8),
  ("👍", 0.7), ("👏", 0.7), ("🙌", 0.8), ("✨", 0.6), ("⭐", 0.6),
  ("🔥", 0.8), ("💯", 0.8), ("🎉", 0.7), ("😂", 0.6), ("🤣", 0.6)]

/-- `Analyzer.emoji_negative`. -/
def emoji_negative : List (String × ℚ) := [
  ("😢", -0.7), ("😭", -0.7), ("😞", -0.6), ("😔", -0.6), ("😠", -0.8),
  ("😡", -0.9), ("🤬", -0.9), ("💔", -0.8), ("👎", -0.7), ("😒", -0.6),
  ("🙄", -0.4)]

/-- A word character in the tokenizing regex `\b\w+\b`
(letters, digits, underscore). -/
def isWordChar (c : Char) : Bool := c.isAlphanum || c = '_'

/-- Whitespace as stripped by `str.strip()` (the guard
`not text or not text.strip()`). -/
def isPySpace (c : Char) : Bool :=
  c = ' ' || c = '\t' || c = '\n' || c = '\r' || c = '\x0b' || c = '\x0c'

/-- Maximal runs of word characters, as matched by
`re.findall(r'\b\w+\b', text)`.  `acc` holds the (reversed) run
currently being read. -/
def tokensAux : List Char → List Char → List (List Char)
  | [], acc => if acc.isEmpty then [] else [acc.reverse]
  | c :: cs, acc =>
    if isWordChar c then tokensAux cs (c :: acc)
    else if acc.isEmpty then tokensAux cs []
    else acc.reverse :: tokensAux cs []

/-- `text.lower()` (ASCII case folding; the lexicons are ASCII). -/
def lowerOf (cs : List Char) : List Char := cs.map Char.toLower

/-- `words = re.findall(r'\b\w+\b', text_lower)`. -/
def wordsOf (cs : List Char) : List String :=
  (tokensAux (lowerOf cs) []).map (fun l => String.mk l)

/-- `any(ind in text_lower for ind in ['!', 'thank', 'wow', 'omg'])`:
the positive-context signal gating the slang lexicon. -/
def contextPositive (lower : List Char) : Bool :=
  decide ("!".toList <:+: lower) || decide ("thank".toList <:+: lower) ||
  decide ("wow".toList <:+: lower) || decide ("omg".toList <:+: lower)

/-- Positive-context signal of a raw input. -/
def ctxOf (cs : List Char) : Bool := contextPositive (lowerOf cs)

/-- The transient state of the scoring loop:
`sentiment_score`, `sentiment_count`, `negation_active`,
`intensifier_mult`. -/
structure LoopState where
  score : ℚ
  count : ℕ
  neg : Bool
  mult : ℚ
deriving DecidableEq, Repr

/-- Base lexicon lookup for one token: slang first (gated on the
positive-context signal), then positive words, then negative words;
zero when nothing matches. -/
def baseScore (ctx : Bool) (w : String) : ℚ :=
  if (List.lookup w slang_positive).isSome then
    (if ctx then (List.lookup w slang_positive).getD 0 else 0)
  else
    match List.lookup w positive_words with
    | some v => v
    | none => (List.lookup w negative_words).getD 0

/-- One iteration of the `for word in words` loop. -/
def stepToken (ctx : Bool) (st : LoopState) (w : String) : LoopState :=
  if w ∈ negations then { st with neg := true }
  else
    match List.lookup w intensifiers with
    | some m => { st with mult := m }
    | none =>
      match List.lookup w diminishers with
      | some m => { st with mult := m }
      | none =>
        let sc := baseScore ctx w
        if sc ≠ 0 then
          { score := st.score + (if st.neg then -(sc * st.mult) * 0.8 else sc * st.mult),
            count := st.count + 1, neg := false, mult := 1 }
        else st

/-- One iteration of the `for char in text` emoji pass. -/
def emojiStep (st : LoopState) (c : Char) : LoopState :=
  match List.lookup (String.mk [c]) emoji_positive with
  | some v => { st with score := st.score + v, count := st.count + 1 }
  | none =>
    match List.lookup (String.mk [c]) emoji_negative with
    | some v => { st with score := st.score + v, count := st.count + 1 }
    | none => st

/-- State after the word-level scoring loop. -/
def wordState (cs : List Char) : LoopState :=
  (wordsOf cs).foldl (stepToken (ctxOf cs)) ⟨0, 0, false, 1⟩

/-- State after the word loop and the emoji pass. -/
def fullState (cs : List Char) : LoopState :=
  cs.foldl emojiStep (wordState cs)

/-- `sentiment_score` after the exclamation boost and the question-mark
reduction. -/
def rawScore (cs : List Char) : ℚ :=
  let st := fullState cs
  let s1 := if 0 < cs.count '!' ∧ st.score ≠ 0 then
      st.score * min (1 + (cs.count '!' : ℚ) * 0.1) 1.3
    else st.score
  if '?' ∈ cs ∧ 0 < st.count then s1 * 0.8 else s1

/-- Normalized polarity before rounding:
`max(-1.0, min(1.0, sentiment_score / max(1, sentiment_count * 0.7)))`. -/
def polarityOf (cs : List Char) : ℚ :=
  if 0 < (fullState cs).count then
    max (-1) (min 1 (rawScore cs / max 1 (((fullState cs).count : ℚ) * 0.7)))
  else 0

/-- `min(1.0, sentiment_count / max(1, word_count) * 2)` before rounding. -/
def subjectivityOf (cs : List Char) : ℚ :=
  min 1 (((fullState cs).count : ℚ) / ((max 1 (wordsOf cs).length : ℕ) : ℚ) * 2)

/-- `'positive'` / `'negative'` / `'neutral'` from the unrounded polarity. -/
def categoryOf (cs : List Char) : String :=
  if 0.15 < polarityOf cs then "positive"
  else if polarityOf cs < -0.15 then "negative"
  else "neutral"

/-- `max(0.3, min(1.0, sentiment_count / max(1, word_count) * 3))`
before rounding. -/
def confidenceOf (cs : List Char) : ℚ :=
  max 0.3 (min 1 (((fullState cs).count : ℚ) / ((max 1 (wordsOf cs).length : ℕ) : ℚ) * 3))

/-- Round-half-to-even to an integer (Python's `round` on the exact value). -/
def roundHalfEven (q : ℚ) : ℤ :=
  if Int.fract q < 1 / 2 then ⌊q⌋
  else if 1 / 2 < Int.fract q then ⌊q⌋ + 1
  else if ⌊q⌋ % 2 = 0 then ⌊q⌋ else ⌊q⌋ + 1

/-- `round(x, 4)`. -/
def round4 (q : ℚ) : ℚ := (roundHalfEven (q * 10000) : ℚ) / 10000

/-- `Analyzer.analyze`: the whole rule-based pipeline. -/
def analyze (text : String) : SentimentResult :=
  if text.data.all isPySpace then
    ⟨0, "neutral", 0, 0, "rule_based"⟩
  else
    ⟨round4 (polarityOf text.data), categoryOf text.data,
     round4 (confidenceOf text.data), round4 (subjectivityOf text.data), "rule_based"⟩

/-- `Analyzer.analyze_batch`: `[self.analyze(text) for text in texts]`. -/
def analyze_batch (texts : List String) : List SentimentResult :=
  texts.map analyze

/-! ### Generic facts about one scoring step -/

/-- A token that is no modifier and has base score zero leaves the whole
loop state unchanged. -/
theorem step_skip (ctx : Bool) (st : LoopState) (w : String)
    (h1 : w ∉ negations) (h2 : List.lookup w intensifiers = none)
    (h3 : List.lookup w diminishers = none) (h4 : baseScore ctx w = 0) :
    stepToken ctx st w = st := by
  simp only [stepToken, if_neg h1, h2, h3, h4]
  simp

/-- A negation marker only sets `negation_active`. -/
theorem step_negation (ctx : Bool) (st : LoopState) (w : String)
    (h : w ∈ negations) : stepToken ctx st w = { st with neg := true } := by
  simp only [stepToken, if_pos h]

/-- An intensifier only sets the multiplier. -/
theorem step_intens (ctx : Bool) (st : LoopState) (w : String) (m : ℚ)
    (h1 : w ∉ negations) (h2 : List.lookup w intensifiers = some m) :
    stepToken ctx st w = { st with mult := m } := by
  simp only [stepToken, if_neg h1, h2]

/-- A diminisher only sets the multiplier. -/
theorem step_dimin (ctx : Bool) (st : LoopState) (w : String) (m : ℚ)
    (h1 : w ∉ negations) (h2 : List.lookup w intensifiers = none)
    (h3 : List.lookup w diminishers = some m) :
    stepToken ctx st w = { st with mult := m } := by
  simp only [stepToken, if_neg h1, h2, h3]

/-- A token with nonzero base score contributes
`±(score × multiplier) (× 0.8 under negation)` and resets both modifier
flags. -/
theorem step_score (ctx : Bool) (st : LoopState) (w : String) (v : ℚ)
    (h1 : w ∉ negations) (h2 : List.lookup w intensifiers = none)
    (h3 : List.lookup w diminishers = none) (h4 : baseScore ctx w = v) (h5 : v ≠ 0) :
    stepToken ctx st w =
      ⟨st.score + (if st.neg then -(v * st.mult) * 0.8 else v * st.mult),
       st.count + 1, false, 1⟩ := by
  simp only [stepToken, if_neg h1, h2, h3, h4, if_pos h5]

/-- A character matching no emoji table leaves the state unchanged. -/
theorem emojiStep_id (st : LoopState) (c : Char)
    (h1 : List.lookup (String.mk [c]) emoji_positive = none)
    (h2 : List.lookup (String.mk [c]) emoji_negative = none) :
    emojiStep st c = st := by
  simp only [emojiStep, h1, h2]

/-- The emoji pass over a list of non-emoji characters is the identity. -/
theorem foldl_emojiStep_id (t : List Char)
    (h : ∀ c ∈ t, List.lookup (String.mk [c]) emoji_positive = none ∧
      List.lookup (String.mk [c]) emoji_negative = none) :
    ∀ st : LoopState, t.foldl emojiStep st = st := by
  induction t with
  | nil => intro st; rfl
  | cons c t ih =>
    intro st
    rw [List.foldl_cons, emojiStep_id st c (h c (by simp)).1 (h c (by simp)).2]
    exact ih (fun c hc => h c (by simp [hc])) st

/-! ### Tokenizer facts -/

/-- Reading only non-word characters flushes the current run and
produces nothing else. -/
theorem tokensAux_nonword (t : List Char) (ht : ∀ c ∈ t, isWordChar c = false) :
    ∀ acc, tokensAux t acc = tokensAux [] acc := by
  induction t with
  | nil => intro acc; rfl
  | cons c t ih =>
    intro acc
    have hc : isWordChar c = false := ht c (by simp)
    have ih' := ih (fun x hx => ht x (by simp [hx]))
    by_cases hacc : acc.isEmpty
    · obtain rfl : acc = [] := List.isEmpty_iff.mp hacc
      show (if isWordChar c then tokensAux t [c]
        else if ([] : List Char).isEmpty then tokensAux t [] else [].reverse :: tokensAux t []) = _
      rw [hc]
      simp only [Bool.false_eq_true, if_false, List.isEmpty_nil, if_true, ih']
    · show (if isWordChar c then tokensAux t (c :: acc)
        else if acc.isEmpty then tokensAux t [] else acc.reverse :: tokensAux t []) = _
      rw [hc]
      simp only [Bool.false_eq_true, if_false, if_neg hacc, ih']
      show acc.reverse :: tokensAux [] [] = tokensAux [] acc
      show acc.reverse :: [] = tokensAux [] acc
      show _ = if acc.isEmpty then [] else [acc.reverse]
      rw [if_neg hacc]

/-- Appending non-word characters does not change the token list. -/
theorem tokensAux_append_nonword (t : List Char) (ht : ∀ c ∈ t, isWordChar c = false) :
    ∀ (s : List Char) (acc : List Char), tokensAux (s ++ t) acc = tokensAux s acc := by
  intro s
  induction s with
  | nil => intro acc; exact tokensAux_nonword t ht acc
  | cons c s ih =>
    intro acc
    show (if isWordChar c then tokensAux (s ++ t) (c :: acc)
      else if acc.isEmpty then tokensAux (s ++ t) [] else acc.reverse :: tokensAux (s ++ t) []) = _
    rw [ih, ih]
    rfl

/-- A nonempty all-word-character list is one single token. -/
theorem tokensAux_allWord (t : List Char) (ht : ∀ c ∈ t, isWordChar c = true) (hne : t ≠ []) :
    ∀ acc, tokensAux t acc = [acc.reverse ++ t] := by
  induction t with
  | nil => exact absurd rfl hne
  | cons c t ih =>
    intro acc
    have hc : isWordChar c = true := ht c (by simp)
    show (if isWordChar c then tokensAux t (c :: acc)
      else if acc.isEmpty then tokensAux t [] else acc.reverse :: tokensAux t []) = _
    rw [hc, if_pos rfl]
    rcases List.eq_nil_or_concat t with rfl | ⟨t', d, rfl⟩
    · simp [tokensAux]
    · rw [ih (fun x hx => ht x (List.mem_cons_of_mem _ hx))
        (by simp [List.concat_eq_append]) (c :: acc)]
      simp

/-- Every character of every token is a word character. -/
theorem tokensAux_wordChar (s : List Char) :
    ∀ acc, (∀ c ∈ acc, isWordChar c = true) →
    ∀ tk ∈ tokensAux s acc, ∀ c ∈ tk, isWordChar c = true := by
  induction s with
  | nil =>
    intro acc hacc tk htk
    by_cases h : acc.isEmpty
    · simp [tokensAux, h] at htk
    · simp only [tokensAux, if_neg h, List.mem_singleton] at htk
      subst htk
      intro c hc
      exact hacc c (by simpa using hc)
  | cons d s ih =>
    intro acc hacc tk htk
    by_cases hd : isWordChar d
    · rw [show tokensAux (d :: s) acc = tokensAux s (d :: acc) from by
        simp [tokensAux, hd]] at htk
      refine ih (d :: acc) ?_ tk htk
      intro c hc
      rcases List.mem_cons.mp hc with rfl | hc
      · exact hd
      · exact hacc c hc
    · by_cases hacc2 : acc.isEmpty
      · rw [show tokensAux (d :: s) acc = tokensAux s [] from by
          simp [tokensAux, hd, hacc2]] at htk
        exact ih [] (by simp) tk htk
      · rw [show tokensAux (d :: s) acc = acc.reverse :: tokensAux s [] from by
          simp [tokensAux, hd, hacc2]] at htk
        rcases List.mem_cons.mp htk with rfl | htk
        · intro c hc
          exact hacc c (by simpa using hc)
        · exact ih [] (by simp) tk htk

/-- A map that fixes every element of a list is the identity. -/
theorem map_eq_self {α} (f : α → α) :
    ∀ (l : List α), (∀ x ∈ l, f x = x) → l.map f = l := by
  intro l
  induction l with
  | nil => intro _; rfl
  | cons x l ih =>
    intro h
    rw [List.map_cons, h x (by simp), ih (fun z hz => h z (by simp [hz]))]

/-! ### Character classes -/

/-- Word characters are not Python whitespace. -/
theorem wordChar_not_space {c : Char} (h : isWordChar c = true) : isPySpace c = false := by
  rcases Bool.eq_false_or_eq_true (isPySpace c) with h2 | h2
  swap
  · exact h2
  · exfalso
    have h3 := h2
    simp only [isPySpace, Bool.or_eq_true, decide_eq_true_eq] at h3
    rcases h3 with ((((rfl | rfl) | rfl) | rfl) | rfl) | rfl <;> exact absurd h (by decide)

/-- Python whitespace characters are non-word, case-stable and match no
emoji table. -/
theorem space_props {c : Char} (h : isPySpace c = true) :
    isWordChar c = false ∧ Char.toLower c = c ∧
    List.lookup (String.mk [c]) emoji_positive = none ∧
    List.lookup (String.mk [c]) emoji_negative = none := by
  have h3 := h
  simp only [isPySpace, Bool.or_eq_true, decide_eq_true_eq] at h3
  rcases h3 with ((((rfl | rfl) | rfl) | rfl) | rfl) | rfl <;>
    exact ⟨by decide, by decide, rfl, rfl⟩

/-- A successful association-list lookup comes from a member pair. -/
theorem lookup_mem {α β} [BEq α] [LawfulBEq α] {a : α} {b : β} :
    ∀ {l : List (α × β)}, List.lookup a l = some b → (a, b) ∈ l := by
  intro l
  induction l with
  | nil => intro h; simp [List.lookup] at h
  | cons p es ih =>
    intro h
    obtain ⟨k, v⟩ := p
    rw [List.lookup_cons] at h
    split at h
    · rename_i hbeq
      obtain rfl := eq_of_beq hbeq
      obtain rfl : v = b := by injection h
      exact List.mem_cons_self ..
    · exact List.mem_cons_of_mem _ (ih h)

/-! ### Rounding facts -/

theorem roundHalfEven_le (q : ℚ) : roundHalfEven q ≤ ⌊q⌋ + 1 := by
  unfold roundHalfEven
  split_ifs <;> omega

theorem le_roundHalfEven (q : ℚ) : ⌊q⌋ ≤ roundHalfEven q := by
  unfold roundHalfEven
  split_ifs <;> omega

theorem roundHalfEven_mono {x y : ℚ} (h : x ≤ y) : roundHalfEven x ≤ roundHalfEven y := by
  rcases lt_or_eq_of_le (Int.floor_le_floor h) with hf | hf
  · calc roundHalfEven x ≤ ⌊x⌋ + 1 := roundHalfEven_le x
      _ ≤ ⌊y⌋ := by omega
      _ ≤ roundHalfEven y := le_roundHalfEven y
  · have hfr : Int.fract x ≤ Int.fract y := by
      unfold Int.fract
      rw [hf]
      linarith [hf ▸ Int.floor_le x]
    unfold roundHalfEven
    rw [hf]
    split_ifs <;> first | omega | linarith

theorem round4_mono {x y : ℚ} (h : x ≤ y) : round4 x ≤ round4 y := by
  unfold round4
  have h2 : x * 10000 ≤ y * 10000 := by linarith
  have h3 := roundHalfEven_mono h2
  have h4 : ((roundHalfEven (x * 10000) : ℚ)) ≤ ((roundHalfEven (y * 10000) : ℚ)) := by
    exact_mod_cast h3
  linarith

/-- `roundHalfEven` is exact on integers. -/
theorem roundHalfEven_intCast (n : ℤ) : roundHalfEven ((n : ℚ)) = n := by
  unfold roundHalfEven
  rw [Int.fract_intCast, Int.floor_intCast]
  norm_num

/-- `round4` is exact on multiples of `1 / 10000`. -/
theorem round4_eq_self {q : ℚ} (n : ℤ) (h : q * 10000 = (n : ℚ)) : round4 q = q := by
  unfold round4
  rw [h, roundHalfEven_intCast]
  rw [← h]
  field_simp

theorem round4_zero : round4 0 = 0 := round4_eq_self 0 (by norm_num)

theorem round4_one : round4 1 = 1 := round4_eq_self 10000 (by norm_num)

theorem round4_pt3 : round4 0.3 = 0.3 := round4_eq_self 3000 (by norm_num)

/-- Evaluation of `roundHalfEven` below the midpoint. -/
theorem roundHalfEven_low {q : ℚ} {n : ℤ} (h1 : (n : ℚ) ≤ q) (h2 : q < (n : ℚ) + 1 / 2) :
    roundHalfEven q = n := by
  have hf : ⌊q⌋ = n := Int.floor_eq_iff.mpr ⟨h1, by linarith⟩
  have hfr : Int.fract q < 1 / 2 := by
    unfold Int.fract
    rw [hf]
    linarith
  rw [roundHalfEven, if_pos hfr, hf]

/-! ### Context-signal facts -/

/-- Appending an element that does not occur in a nonempty pattern does
not create a new occurrence of the pattern. -/
theorem IsInfix_concat_iff {α} {pat l : List α} {c : α} (hne : pat ≠ []) (hc : c ∉ pat) :
    pat <:+: l ++ [c] ↔ pat <:+: l := by
  constructor
  · rintro ⟨u, v, huv⟩
    rcases List.eq_nil_or_concat v with rfl | ⟨v', d, rfl⟩
    · exfalso
      rcases List.eq_nil_or_concat pat with rfl | ⟨p', e, rfl⟩
      · exact hne rfl
      · have h2 : (u ++ p') ++ [e] = l ++ [c] := by
          simpa [List.concat_eq_append, List.append_assoc] using huv
        have h3 := (List.append_inj' h2 rfl).2
        apply hc
        have : e = c := by simpa using h3
        simp [List.concat_eq_append, this]
    · have h2 : (u ++ pat ++ v') ++ [d] = l ++ [c] := by
        simpa [List.concat_eq_append, List.append_assoc] using huv
      have h3 := List.append_inj' h2 rfl
      exact ⟨u, v', h3.1⟩
  · rintro ⟨u, v, rfl⟩
    exact ⟨u, v ++ [c], by simp⟩

/-- Appending a trailing `?` does not change the positive-context
signal. -/
theorem contextPositive_concat_qmark (l : List Char) :
    contextPositive (l ++ ['?']) = contextPositive l := by
  unfold contextPositive
  rw [decide_eq_decide.mpr (IsInfix_concat_iff (by decide) (by decide)),
    decide_eq_decide.mpr (IsInfix_concat_iff (by decide) (by decide)),
    decide_eq_decide.mpr (IsInfix_concat_iff (by decide) (by decide)),
    decide_eq_decide.mpr (IsInfix_concat_iff (by decide) (by decide))]

/-- `baseScore` ignores the context signal for non-slang tokens. -/
theorem baseScore_ctx (ctx ctx' : Bool) (w : String)
    (h : List.lookup w slang_positive = none) : baseScore ctx w = baseScore ctx' w := by
  unfold baseScore
  rw [h]
  rfl

/-- One scoring step ignores the context signal for non-slang tokens. -/
theorem stepToken_ctx (ctx ctx' : Bool) (st : LoopState) (w : String)
    (h : List.lookup w slang_positive = none) :
    stepToken ctx st w = stepToken ctx' st w := by
  unfold stepToken
  rw [baseScore_ctx ctx ctx' w h]

/-- The whole scoring loop ignores the context signal when no token is
slang. -/
theorem foldl_stepToken_ctx (ctx ctx' : Bool) :
    ∀ (l : List String) (st : LoopState),
    (∀ w ∈ l, List.lookup w slang_positive = none) →
    l.foldl (stepToken ctx) st = l.foldl (stepToken ctx') st := by
  intro l
  induction l with
  | nil => exact fun st _ => rfl
  | cons w l ih =>
    intro st h
    rw [List.foldl_cons, List.foldl_cons, stepToken_ctx ctx ctx' st w (h w (by simp))]
    exact ih _ (fun x hx => h x (by simp [hx]))

/-! ### Punctuation adjustment, decomposed -/

/-- The raw score is the post-loop score times the exclamation boost
times the question-mark factor. -/
theorem rawScore_eq (cs : List Char) :
    rawScore cs = (fullState cs).score * min (1 + (cs.count '!' : ℚ) * 0.1) 1.3 *
      (if '?' ∈ cs ∧ 0 < (fullState cs).count then 0.8 else 1) := by
  simp only [rawScore]
  by_cases h1 : 0 < cs.count '!' ∧ (fullState cs).score ≠ 0
  · rw [if_pos h1]
    by_cases h2 : '?' ∈ cs ∧ 0 < (fullState cs).count
    · rw [if_pos h2, if_pos h2]
    · rw [if_neg h2, if_neg h2, mul_one]
  · rw [if_neg h1]
    push_neg at h1
    rcases Nat.eq_zero_or_pos (cs.count '!') with he | he
    · rw [he]
      have hb : min (1 + ((0 : ℕ) : ℚ) * 0.1) 1.3 = 1 := by
        rw [min_eq_left (by norm_num)]
        norm_num
      rw [hb, mul_one]
      by_cases h2 : '?' ∈ cs ∧ 0 < (fullState cs).count
      · rw [if_pos h2, if_pos h2]
      · rw [if_neg h2, if_neg h2, mul_one]
    · have hs0 : (fullState cs).score = 0 := h1 he
      rw [hs0, zero_mul, zero_mul]
      by_cases h2 : '?' ∈ cs ∧ 0 < (fullState cs).count
      · rw [if_pos h2, zero_mul]
      · rw [if_neg h2, zero_mul]

/-- The exclamation boost is at least one. -/
theorem one_le_boost (e : ℕ) : 1 ≤ min (1 + (e : ℚ) * 0.1) 1.3 := by
  apply le_min
  · have : (0 : ℚ) ≤ (e : ℚ) := Nat.cast_nonneg e
    nlinarith
  · norm_num

/-- The exclamation boost is monotone in the number of `!`. -/
theorem boost_mono {e1 e2 : ℕ} (h : e1 ≤ e2) :
    min (1 + (e1 : ℚ) * 0.1) 1.3 ≤ min (1 + (e2 : ℚ) * 0.1) 1.3 := by
  apply min_le_min _ le_rfl
  have : (e1 : ℚ) ≤ (e2 : ℚ) := by exact_mod_cast h
  nlinarith

/-! ### Absolute rounded clamped polarity -/

/-- Scaling a signed score by a larger positive factor cannot shrink the
absolute value of the rounded, clamped, normalized polarity. -/
theorem abs_round4_clamp {S m1 m2 d : ℚ} (h1 : 0 < m1) (h12 : m1 ≤ m2) (hd : 0 < d) :
    |round4 (max (-1) (min 1 (S * m1 / d)))| ≤ |round4 (max (-1) (min 1 (S * m2 / d)))| := by
  rcases le_or_lt 0 S with hS | hS
  · have hx1 : 0 ≤ S * m1 / d := div_nonneg (mul_nonneg hS h1.le) hd.le
    have hxy : S * m1 / d ≤ S * m2 / d :=
      (div_le_div_iff_of_pos_right hd).mpr (mul_le_mul_of_nonneg_left h12 hS)
    have hc : max (-1) (min 1 (S * m1 / d)) ≤ max (-1) (min 1 (S * m2 / d)) :=
      max_le_max le_rfl (min_le_min le_rfl hxy)
    have hc0 : 0 ≤ max (-1) (min 1 (S * m1 / d)) :=
      le_max_of_le_right (le_min (by norm_num) hx1)
    have hr0 : 0 ≤ round4 (max (-1) (min 1 (S * m1 / d))) := by
      have := round4_mono hc0
      rwa [round4_zero] at this
    rw [abs_of_nonneg hr0, abs_of_nonneg (le_trans hr0 (round4_mono hc))]
    exact round4_mono hc
  · have hx1 : S * m1 / d ≤ 0 := div_nonpos_of_nonpos_of_nonneg (mul_nonpos_of_nonpos_of_nonneg hS.le h1.le) hd.le
    have hxy : S * m2 / d ≤ S * m1 / d :=
      (div_le_div_iff_of_pos_right hd).mpr (mul_le_mul_of_nonpos_left h12 hS.le)
    have hc : max (-1) (min 1 (S * m2 / d)) ≤ max (-1) (min 1 (S * m1 / d)) :=
      max_le_max le_rfl (min_le_min le_rfl hxy)
    have hc0 : max (-1) (min 1 (S * m1 / d)) ≤ 0 :=
      max_le (by norm_num) (le_trans (min_le_right _ _) hx1)
    have hr0 : round4 (max (-1) (min 1 (S * m1 / d))) ≤ 0 := by
      have := round4_mono hc0
      rwa [round4_zero] at this
    rw [abs_of_nonpos hr0, abs_of_nonpos (le_trans (round4_mono hc) hr0)]
    exact neg_le_neg (round4_mono hc)

/-! ### Effect of appended punctuation on the pipeline state -/

/-- Unfolding `analyze` on non-blank input. -/
theorem analyze_not_blank (s : String) (h : s.data.all isPySpace = false) :
    analyze s = ⟨round4 (polarityOf s.data), categoryOf s.data,
      round4 (confidenceOf s.data), round4 (subjectivityOf s.data), "rule_based"⟩ := by
  rw [analyze, if_neg (by simp [h])]

/-- Unfolding `analyze` on blank input. -/
theorem analyze_blank (s : String) (h : s.data.all isPySpace = true) :
    analyze s = ⟨0, "neutral", 0, 0, "rule_based"⟩ := by
  rw [analyze, if_pos h]

/-- Appending `!` marks changes neither the token list nor the loop and
emoji state, provided no token is a slang word. -/
theorem state_append_bang (cs : List Char) (k : ℕ)
    (hns : ∀ w ∈ wordsOf cs, List.lookup w slang_positive = none) :
    wordsOf (cs ++ List.replicate k '!') = wordsOf cs ∧
    fullState (cs ++ List.replicate k '!') = fullState cs := by
  have hbang : ∀ c ∈ List.replicate k '!', isWordChar c = false := by
    intro c hc
    obtain rfl := (List.mem_replicate.mp hc).2
    decide
  have hlower : lowerOf (cs ++ List.replicate k '!') = lowerOf cs ++ List.replicate k '!' := by
    unfold lowerOf
    rw [List.map_append, List.map_replicate]
    rfl
  have hwords : wordsOf (cs ++ List.replicate k '!') = wordsOf cs := by
    unfold wordsOf
    rw [hlower, tokensAux_append_nonword _ hbang]
  have hws : wordState (cs ++ List.replicate k '!') = wordState cs := by
    unfold wordState
    rw [hwords]
    exact foldl_stepToken_ctx _ _ _ _ hns
  refine ⟨hwords, ?_⟩
  unfold fullState
  rw [hws, List.foldl_append]
  apply foldl_emojiStep_id
  intro c hc
  obtain rfl := (List.mem_replicate.mp hc).2
  exact ⟨rfl, rfl⟩

/-- Appending a trailing `?` changes neither the token list nor the loop
and emoji state. -/
theorem state_append_qmark (cs : List Char) :
    wordsOf (cs ++ ['?']) = wordsOf cs ∧ fullState (cs ++ ['?']) = fullState cs := by
  have hlower : lowerOf (cs ++ ['?']) = lowerOf cs ++ ['?'] := by
    unfold lowerOf
    rw [List.map_append]
    rfl
  have hwords : wordsOf (cs ++ ['?']) = wordsOf cs := by
    unfold wordsOf
    rw [hlower, tokensAux_append_nonword _ (by intro c hc; simp at hc; subst hc; decide)]
  have hctx : ctxOf (cs ++ ['?']) = ctxOf cs := by
    unfold ctxOf
    rw [hlower, contextPositive_concat_qmark]
  have hws : wordState (cs ++ ['?']) = wordState cs := by
    unfold wordState
    rw [hwords, hctx]
  refine ⟨hwords, ?_⟩
  unfold fullState
  rw [hws, List.foldl_append]
  exact (foldl_emojiStep_id ['?'] (by intro c hc; simp at hc; subst hc; exact ⟨rfl, rfl⟩) _)

/-- Appending `!` marks cannot shrink the absolute rounded polarity when
no token is a slang word. -/
theorem abs_polarity_bang (cs : List Char) (k : ℕ)
    (hns : ∀ w ∈ wordsOf cs, List.lookup w slang_positive = none) :
    |round4 (polarityOf cs)| ≤ |round4 (polarityOf (cs ++ List.replicate k '!'))| := by
  obtain ⟨-, hfull⟩ := state_append_bang cs k hns
  by_cases hcnt : 0 < (fullState cs).count
  swap
  · rw [polarityOf, if_neg hcnt, polarityOf, hfull, if_neg hcnt]
  · have hqm : ('?' ∈ cs ++ List.replicate k '!') = ('?' ∈ cs) := by
      simp [List.mem_append, List.mem_replicate]
    have hbc : List.count '!' (cs ++ List.replicate k '!') = List.count '!' cs + k := by
      rw [List.count_append, List.count_replicate_self]
    simp only [polarityOf, rawScore_eq, hfull, hbc, hqm, hcnt, if_true]
    rw [mul_assoc, mul_assoc]
    apply abs_round4_clamp
    · apply mul_pos (lt_of_lt_of_le one_pos (one_le_boost _))
      split_ifs <;> norm_num
    · apply mul_le_mul_of_nonneg_right (boost_mono (by omega))
      split_ifs <;> norm_num
    · exact lt_of_lt_of_le one_pos (le_max_left 1 _)

/-- A trailing `?` cannot grow the absolute rounded polarity. -/
theorem abs_polarity_qmark (cs : List Char) :
    |round4 (polarityOf (cs ++ ['?']))| ≤ |round4 (polarityOf cs)| := by
  obtain ⟨-, hfull⟩ := state_append_qmark cs
  by_cases hcnt : 0 < (fullState cs).count
  swap
  · rw [polarityOf, hfull, if_neg hcnt, polarityOf, if_neg hcnt]
  · have hqm : ('?' ∈ cs ++ ['?']) = True := by simp
    have hbc : List.count '!' (cs ++ ['?']) = List.count '!' cs := by
      rw [List.count_append]
      rfl
    simp only [polarityOf, rawScore_eq, hfull, hbc, hqm, hcnt, if_true, true_and]
    rw [mul_assoc, mul_assoc]
    apply abs_round4_clamp
    · apply mul_pos (lt_of_lt_of_le one_pos (one_le_boost _))
      norm_num
    · apply mul_le_mul_of_nonneg_left _ (le_trans (by norm_num) (one_le_boost _))
      split_ifs <;> norm_num
    · exact lt_of_lt_of_le one_pos (le_max_left 1 _)

/-! ### Blank-input state -/

/-- On whitespace-only input the loop and emoji state is the initial
state. -/
theorem blank_state (cs : List Char) (h : cs.all isPySpace = true) :
    fullState cs = ⟨0, 0, false, 1⟩ := by
  have h' : ∀ c ∈ cs, isPySpace c = true := by
    intro c hc
    exact List.all_eq_true.mp h c hc
  have hwords : wordsOf cs = [] := by
    unfold wordsOf lowerOf
    have hnw : ∀ c ∈ cs.map Char.toLower, isWordChar c = false := by
      intro c hc
      obtain ⟨a, ha, rfl⟩ := List.mem_map.mp hc
      rw [(space_props (h' a ha)).2.1]
      exact (space_props (h' a ha)).1
    rw [tokensAux_nonword _ hnw []]
    rfl
  unfold fullState wordState
  rw [hwords]
  exact foldl_emojiStep_id cs
    (fun c hc => ⟨(space_props (h' c hc)).2.2.1, (space_props (h' c hc)).2.2.2⟩) _

/-- C2 (amended): for an input none of whose tokens is a slang-positive
word, appending exclamation marks does not decrease the absolute
polarity; and for every input, appending a trailing question mark does
not increase it. -/
theorem C2_punctuation_monotonicity (s : String) (k : ℕ) :
    ((wordsOf s.data).all (fun w => (List.lookup w slang_positive).isNone) = true →
      |(analyze s).polarity| ≤
        |(analyze (s ++ String.mk (List.replicate k '!'))).polarity|)
    ∧ |(analyze (s ++ "?")).polarity| ≤ |(analyze s).polarity| := by
  constructor
  · intro hns
    have hns' : ∀ w ∈ wordsOf s.data, List.lookup w slang_positive = none := by
      intro w hw
      exact Option.isNone_iff_eq_none.mp (List.all_eq_true.mp hns w hw)
    rcases Bool.eq_false_or_eq_true (s.data.all isPySpace) with hb | hb
    · rw [analyze_blank s hb]
      show |(0 : ℚ)| ≤ _
      rw [abs_zero]
      exact abs_nonneg _
    · have hb' : (s ++ String.mk (List.replicate k '!')).data.all isPySpace = false := by
        rw [String.data_append, List.all_append, hb]
        rfl
      rw [analyze_not_blank s hb, analyze_not_blank _ hb']
      show |round4 (polarityOf s.data)| ≤
        |round4 (polarityOf (s ++ String.mk (List.replicate k '!')).data)|
      rw [String.data_append]
      exact abs_polarity_bang s.data k hns'
  · have hq' : (s ++ "?").data = s.data ++ ['?'] := by
      rw [String.data_append]
    rcases Bool.eq_false_or_eq_true (s.data.all isPySpace) with hb | hb
    · have hb' : (s ++ "?").data.all isPySpace = false := by
        rw [hq', List.all_append, hb]
        rfl
      rw [analyze_blank s hb, analyze_not_blank _ hb']
      show |round4 (polarityOf (s ++ "?").data)| ≤ |(0 : ℚ)|
      rw [hq']
      have hcnt : (fullState (s.data ++ ['?'])).count = 0 := by
        rw [(state_append_qmark s.data).2, blank_state s.data hb]
      rw [polarityOf, if_neg (by rw [hcnt]; exact lt_irrefl 0), round4_zero]
    · have hb' : (s ++ "?").data.all isPySpace = false := by
        rw [hq', List.all_append, hb]
        rfl
      rw [analyze_not_blank s hb, analyze_not_blank _ hb']
      show |round4 (polarityOf (s ++ "?").data)| ≤ |round4 (polarityOf s.data)|
      rw [hq']
      exact abs_polarity_qmark s.data
  
/-- C4: the rule-based `analyze` is total, and on empty or
whitespace-only input returns exactly the zero result. -/
theorem C4_empty_input (s : String) :
    (∃ r : SentimentResult, analyze s = r) ∧
    (s.data.all isPySpace = true → analyze s = ⟨0, "neutral", 0, 0, "rule_based"⟩) :=
  ⟨⟨analyze s, rfl⟩, fun h => analyze_blank s h⟩

/-- C4 witness: the whitespace-only input `"   "`. -/
theorem C4_empty_input_witness :
    analyze "   " = ⟨0, "neutral", 0, 0, "rule_based"⟩ :=
  (C4_empty_input "   ").2 (by decide)

/-- C5: on non-blank input the confidence lies in `[0.3, 1]`, and it is
exactly `0.3` when no token or emoji is sentiment-bearing. -/
theorem C5_confidence (s : String) (h : s.data.all isPySpace = false) :
    (0.3 ≤ (analyze s).confidence ∧ (analyze s).confidence ≤ 1) ∧
    ((fullState s.data).count = 0 → (analyze s).confidence = 0.3) := by
  have hconf : (analyze s).confidence = round4 (confidenceOf s.data) := by
    rw [analyze_not_blank s h]
  rw [hconf]
  refine ⟨⟨?_, ?_⟩, ?_⟩
  · have h1 : (0.3 : ℚ) ≤ confidenceOf s.data := le_max_left ..
    calc (0.3 : ℚ) = round4 0.3 := round4_pt3.symm
      _ ≤ round4 (confidenceOf s.data) := round4_mono h1
  · have h2 : confidenceOf s.data ≤ 1 := max_le (by norm_num) (min_le_left ..)
    calc round4 (confidenceOf s.data) ≤ round4 1 := round4_mono h2
      _ = 1 := round4_one
  · intro hc
    have h3 : confidenceOf s.data = 0.3 := by
      unfold confidenceOf
      rw [hc]
      norm_num
    rw [h3, round4_pt3]

/-- C5 witness: the sentiment-free input `"abc"`. -/
theorem C5_confidence_witness :
    0.3 ≤ (analyze "abc").confidence ∧ (analyze "abc").confidence ≤ 1 ∧
    (analyze "abc").confidence = 0.3 :=
  ⟨(C5_confidence "abc" (by decide)).1.1, (C5_confidence "abc" (by decide)).1.2,
   (C5_confidence "abc" (by decide)).2 (by decide)⟩

/-- C8: `analyze_batch` maps `analyze` over the inputs, preserving
length and order. -/
theorem C8_batch_order (ts : List String) :
    (analyze_batch ts).length = ts.length ∧
    ∀ i : ℕ, (analyze_batch ts)[i]? = (ts[i]?).map analyze := by
  constructor
  · exact List.length_map ..
  · intro i
    exact List.getElem?_map ..

/-! ### Concrete evaluations for C2 -/

/-- Loop state of `"terrible insane"` (no positive-context signal, so
the slang word scores zero). -/
theorem wordState_terrible : wordState "terrible insane".data = ⟨0 + -0.9 * 1, 1, false, 1⟩ := by
  have hw : wordsOf "terrible insane".data = ["terrible", "insane"] := by decide
  have hctx : ctxOf "terrible insane".data = false := by decide
  rw [wordState, hw, hctx]
  rw [List.foldl_cons,
    step_score false _ "terrible" (-0.9) (by decide) (by decide) (by decide) rfl (by norm_num)]
  rw [List.foldl_cons, step_skip false _ "insane" (by decide) (by decide) (by decide) rfl]
  rw [List.foldl_nil]
  rfl

/-- Loop state of `"terrible insane!"` (the `!` activates the slang
word). -/
theorem wordState_terrible_bang :
    wordState "terrible insane!".data = ⟨0 + -0.9 * 1 + 0.8 * 1, 2, false, 1⟩ := by
  have hw : wordsOf "terrible insane!".data = ["terrible", "insane"] := by decide
  have hctx : ctxOf "terrible insane!".data = true := by decide
  rw [wordState, hw, hctx]
  rw [List.foldl_cons,
    step_score true _ "terrible" (-0.9) (by decide) (by decide) (by decide) rfl (by norm_num)]
  rw [List.foldl_cons,
    step_score true _ "insane" 0.8 (by decide) (by decide) (by decide) rfl (by norm_num)]
  rw [List.foldl_nil]
  rfl

/-- The rounded polarity of `"terrible insane"` is `-0.9`. -/
theorem analyze_terrible : (analyze "terrible insane").polarity = -0.9 := by
  have hfull : fullState "terrible insane".data = ⟨-0.9, 1, false, 1⟩ := by
    rw [fullState, wordState_terrible]
    show (⟨0 + -0.9 * 1, 1, false, 1⟩ : LoopState) = _
    norm_num
  have hcount : List.count '!' "terrible insane".data = 0 := by decide
  have hraw : rawScore "terrible insane".data = -0.9 := by
    simp only [rawScore, hfull, hcount]
    norm_num [(by decide : ¬('?' ∈ "terrible insane".data))]
  have hpol : polarityOf "terrible insane".data = -0.9 := by
    simp only [polarityOf, hfull, hraw]
    norm_num [min_def, max_def]
  rw [analyze_not_blank _ (by decide)]
  show round4 (polarityOf "terrible insane".data) = -0.9
  rw [hpol, round4_eq_self (-9000) (by norm_num)]

/-- The rounded polarity of `"terrible insane!"` is `-0.0786`. -/
theorem analyze_terrible_bang :
    (analyze ("terrible insane" ++ String.mk (List.replicate 1 '!'))).polarity = -786 / 10000 := by
  have hstr : "terrible insane" ++ String.mk (List.replicate 1 '!') = "terrible insane!" := rfl
  rw [hstr]
  have hfull : fullState "terrible insane!".data = ⟨-0.1, 2, false, 1⟩ := by
    rw [fullState, wordState_terrible_bang]
    show (⟨0 + -0.9 * 1 + 0.8 * 1, 2, false, 1⟩ : LoopState) = _
    norm_num
  have hcount : List.count '!' "terrible insane!".data = 1 := by decide
  have hraw : rawScore "terrible insane!".data = -0.11 := by
    simp only [rawScore, hfull, hcount]
    norm_num [min_def, (by decide : ¬('?' ∈ "terrible insane!".data))]
  have hpol : polarityOf "terrible insane!".data = -11 / 140 := by
    simp only [polarityOf, hfull, hraw]
    norm_num [min_def, max_def]
  rw [analyze_not_blank _ (by decide)]
  show round4 (polarityOf "terrible insane!".data) = -786 / 10000
  rw [hpol, round4]
  have harg : (-11 / 140 : ℚ) * 10000 = -5500 / 7 := by norm_num
  have hlow := roundHalfEven_low
    (show ((-786 : ℤ) : ℚ) ≤ -5500 / 7 by norm_num)
    (show (-5500 / 7 : ℚ) < ((-786 : ℤ) : ℚ) + 1 / 2 by norm_num)
  rw [harg, hlow]
  norm_num

/-- C2 counterexample: appending `!` to `"terrible insane"` strictly
shrinks the absolute polarity (the `!` switches on the slang word
`insane`, which cancels most of the negative score), refuting the
unrestricted monotonicity claim. -/
theorem C2_counterexample :
    ¬ (|(analyze "terrible insane").polarity| ≤
       |(analyze ("terrible insane" ++ String.mk (List.replicate 1 '!'))).polarity|) := by
  rw [analyze_terrible, analyze_terrible_bang]
  rw [abs_of_nonpos (by norm_num : (-0.9 : ℚ) ≤ 0),
    abs_of_nonpos (by norm_num : (-786 / 10000 : ℚ) ≤ 0)]
  norm_num

/-- C2 witness: on a slang-free input, both amended monotonicity claims
apply. -/
theorem C2_punctuation_monotonicity_witness :
    |(analyze "good").polarity| ≤
      |(analyze ("good" ++ String.mk (List.replicate 2 '!'))).polarity| ∧
    |(analyze ("good" ++ "?")).polarity| ≤ |(analyze "good").polarity| :=
  ⟨(C2_punctuation_monotonicity "good" 2).1 (by decide),
   (C2_punctuation_monotonicity "good" 2).2⟩

/-! ### C1: negation of a base-positive single word -/

/-- Full run of the pipeline on a single base-positive word `w` and on
`"not " ++ w`: the former is categorized positive, the latter negative
(sign flip with 0.8 attenuation), whenever the base score exceeds
`0.15 / 0.7`. -/
theorem analyze_posword (w : String) (s : ℚ)
    (hlow : w.data.map Char.toLower = w.data)
    (hwc : ∀ c ∈ w.data, isWordChar c = true)
    (hne : w.data ≠ [])
    (hsl : List.lookup w slang_positive = none)
    (hneg : w ∉ negations)
    (hint : List.lookup w intensifiers = none)
    (hdim : List.lookup w diminishers = none)
    (hpos : List.lookup w positive_words = some s)
    (hemoji : ∀ st : LoopState, w.data.foldl emojiStep st = st)
    (hs : 0.15 / 0.7 < s) :
    (analyze w).category = "positive" ∧ (analyze ("not " ++ w)).category = "negative" := by
  have hspos : 0 < s := lt_trans (by norm_num) hs
  have hs0 : s ≠ 0 := ne_of_gt hspos
  have hbase : ∀ ctx, baseScore ctx w = s := by
    intro ctx
    unfold baseScore
    rw [hsl, hpos]
    rfl
  have hbang : '!' ∉ w.data := fun hmem => absurd (hwc '!' hmem) (by decide)
  have hqm : '?' ∉ w.data := fun hmem => absurd (hwc '?' hmem) (by decide)
  have hmk : String.mk w.data = w := by cases w; rfl
  constructor
  · -- the single word alone
    have hblank : w.data.all isPySpace = false := by
      obtain ⟨c, cs', hcons⟩ := List.exists_cons_of_ne_nil hne
      rw [hcons, List.all_cons, wordChar_not_space (hwc c (by rw [hcons]; exact List.mem_cons_self ..))]
      rfl
    have hwords : wordsOf w.data = [w] := by
      unfold wordsOf lowerOf
      rw [hlow, tokensAux_allWord w.data hwc hne []]
      show [String.mk ([].reverse ++ w.data)] = [w]
      rw [List.reverse_nil, List.nil_append, hmk]
    have hws : wordState w.data = ⟨0 + s * 1, 1, false, 1⟩ := by
      unfold wordState
      rw [hwords, List.foldl_cons,
        step_score _ _ w s hneg hint hdim (hbase _) hs0, List.foldl_nil]
      rfl
    have hfull : fullState w.data = ⟨0 + s * 1, 1, false, 1⟩ := by
      unfold fullState
      rw [hws, hemoji]
    have hcount : List.count '!' w.data = 0 := List.count_eq_zero.mpr hbang
    have hraw : rawScore w.data = s * 1 := by
      simp only [rawScore, hfull, hcount, lt_self_iff_false, false_and, if_false,
        eq_false hqm, zero_add]
    have h1 : 0.15 < polarityOf w.data := by
      simp only [polarityOf, hfull, hraw, Nat.cast_one]
      rw [if_pos (by norm_num : (0 : ℕ) < 1)]
      apply lt_max_of_lt_right
      apply lt_min (by norm_num)
      rw [one_mul, max_eq_left (by norm_num : (0.7 : ℚ) ≤ 1), mul_one, div_one]
      linarith
    rw [analyze_not_blank w hblank]
    show categoryOf w.data = "positive"
    rw [categoryOf, if_pos h1]
  · -- prefixed by "not "
    have hdata : ("not " ++ w).data = 'n' :: 'o' :: 't' :: ' ' :: w.data := by
      rw [String.data_append]
      rfl
    have hblank2 : ("not " ++ w).data.all isPySpace = false := by
      rw [hdata]
      rfl
    have hlow2 : lowerOf ("not " ++ w).data = 'n' :: 'o' :: 't' :: ' ' :: w.data := by
      rw [hdata]
      show List.map Char.toLower ('n' :: 'o' :: 't' :: ' ' :: w.data) = _
      rw [List.map_cons, List.map_cons, List.map_cons, List.map_cons, hlow]
      rfl
    have htok2 : tokensAux (lowerOf ("not " ++ w).data) [] = [['n', 'o', 't'], w.data] := by
      rw [hlow2]
      show ['n', 'o', 't'] :: tokensAux w.data [] = _
      rw [tokensAux_allWord w.data hwc hne []]
      rfl
    have hwords2 : wordsOf ("not " ++ w).data = ["not", w] := by
      unfold wordsOf
      rw [htok2]
      show [String.mk ['n', 'o', 't'], String.mk w.data] = _
      rw [hmk]
    have hws2 : wordState ("not " ++ w).data = ⟨0 + -(s * 1) * 0.8, 1, false, 1⟩ := by
      unfold wordState
      rw [hwords2, List.foldl_cons, step_negation _ _ "not" (by decide),
        List.foldl_cons, step_score _ _ w s hneg hint hdim (hbase _) hs0, List.foldl_nil]
      rfl
    have hfull2 : fullState ("not " ++ w).data = ⟨0 + -(s * 1) * 0.8, 1, false, 1⟩ := by
      unfold fullState
      rw [hws2, hdata]
      exact hemoji _
    have hcount2 : List.count '!' ("not " ++ w).data = 0 := by
      rw [hdata]
      simp [List.count_cons, List.count_eq_zero.mpr hbang]
    have hqm2 : '?' ∉ ("not " ++ w).data := by
      rw [hdata]
      simp [hqm]
    have hraw2 : rawScore ("not " ++ w).data = -(s * 1) * 0.8 := by
      simp only [rawScore, hfull2, hcount2, lt_self_iff_false, false_and, if_false,
        eq_false hqm2, zero_add]
    have hval : polarityOf ("not " ++ w).data = max (-1) (min 1 (-(s * 1) * 0.8)) := by
      simp only [polarityOf, hfull2, hraw2, Nat.cast_one]
      rw [if_pos (by norm_num : (0 : ℕ) < 1),
        one_mul, max_eq_left (by norm_num : (0.7 : ℚ) ≤ 1), div_one]
    have hneg015 : polarityOf ("not " ++ w).data < -0.15 := by
      rw [hval]
      apply max_lt (by norm_num)
      apply lt_of_le_of_lt (min_le_right _ _)
      linarith
    have hnotpos : ¬ (0.15 < polarityOf ("not " ++ w).data) :=
      fun hcon => lt_asymm hcon (lt_trans hneg015 (by norm_num))
    rw [analyze_not_blank _ hblank2]
    show categoryOf ("not " ++ w).data = "negative"
    rw [categoryOf, if_neg hnotpos, if_pos hneg015]

/-- C1: every base-positive word with score above `0.15 / 0.7` is
categorized positive alone and negative after `"not "`. -/
theorem C1_negation_property :
    ∀ p ∈ positive_words, 0.15 / 0.7 < p.2 →
      (analyze p.1).category = "positive" ∧
      (analyze ("not " ++ p.1)).category = "negative" := by
  intro p hp hs
  fin_cases hp <;>
    exact analyze_posword _ _ rfl (by decide) (by decide) (by decide) (by decide)
      (by decide) (by decide) rfl (fun st => rfl) hs

/-- C1 witness: the pair `("love", 0.8)`. -/
theorem C1_negation_property_witness :
    (analyze "love").category = "positive" ∧
    (analyze ("not " ++ "love")).category = "negative" :=
  C1_negation_property ("love", 0.8)
    (by repeat first | exact List.mem_cons_self .. | apply List.mem_cons_of_mem)
    (by norm_num)

/-! ### C6: modifier-state invariants of the scoring loop -/

/-- C6: an unmatched non-modifier token leaves the state (including
`negation_active` and `intensifier_mult`) unchanged, any run of such
tokens is skipped transparently, and a token with nonzero base score
resets the multiplier to 1 and the negation flag to false. -/
theorem C6_modifier_state (ctx : Bool) (st : LoopState) :
    (∀ w : String, w ∉ negations → List.lookup w intensifiers = none →
      List.lookup w diminishers = none → baseScore ctx w = 0 →
      stepToken ctx st w = st)
    ∧ (∀ l : List String,
      (∀ w ∈ l, w ∉ negations ∧ List.lookup w intensifiers = none ∧
        List.lookup w diminishers = none ∧ baseScore ctx w = 0) →
      l.foldl (stepToken ctx) st = st)
    ∧ (∀ w : String, w ∉ negations → List.lookup w intensifiers = none →
      List.lookup w diminishers = none → baseScore ctx w ≠ 0 →
      (stepToken ctx st w).mult = 1 ∧ (stepToken ctx st w).neg = false) := by
  refine ⟨fun w h1 h2 h3 h4 => step_skip ctx st w h1 h2 h3 h4, ?_, ?_⟩
  · intro l
    induction l with
    | nil => intro _; rfl
    | cons w l ih =>
      intro h
      rw [List.foldl_cons, step_skip ctx st w (h w (by simp)).1 (h w (by simp)).2.1
        (h w (by simp)).2.2.1 (h w (by simp)).2.2.2]
      exact ih (fun x hx => h x (by simp [hx]))
  · intro w h1 h2 h3 h4
    rw [step_score ctx st w (baseScore ctx w) h1 h2 h3 rfl h4]
    exact ⟨rfl, rfl⟩

/-- C6 witness: filler tokens carry the pending negation and 1.5
multiplier through; the scoring token `"good"` consumes them. -/
theorem C6_modifier_state_witness :
    stepToken true ⟨0, 0, true, 1.5⟩ "stray" = ⟨0, 0, true, 1.5⟩ ∧
    List.foldl (stepToken true) ⟨0, 0, true, 1.5⟩ ["some", "stray", "filler"] =
      ⟨0, 0, true, 1.5⟩ ∧
    (stepToken true ⟨0, 0, true, 1.5⟩ "good").mult = 1 ∧
    (stepToken true ⟨0, 0, true, 1.5⟩ "good").neg = false := by
  have hgne : baseScore true "good" ≠ 0 := by
    show ¬(0.6 : ℚ) = 0
    norm_num
  refine ⟨(C6_modifier_state true ⟨0, 0, true, 1.5⟩).1 "stray"
      (by decide) (by decide) (by decide) rfl,
    (C6_modifier_state true ⟨0, 0, true, 1.5⟩).2.1 ["some", "stray", "filler"] ?_,
    ((C6_modifier_state true ⟨0, 0, true, 1.5⟩).2.2 "good"
      (by decide) (by decide) (by decide) hgne).1,
    ((C6_modifier_state true ⟨0, 0, true, 1.5⟩).2.2 "good"
      (by decide) (by decide) (by decide) hgne).2⟩
  intro w hw
  fin_cases hw <;> exact ⟨by decide, by decide, by decide, rfl⟩

/-! ### C3: slang gating -/

/-- Polarity of `"This is insane"` (no positive-context signal): the
slang word contributes nothing, so the polarity is zero. -/
theorem analyze_insane : (analyze "This is insane").polarity = 0 := by
  have hw : wordsOf "This is insane".data = ["this", "is", "insane"] := by decide
  have hctx : ctxOf "This is insane".data = false := by decide
  have hws : wordState "This is insane".data = ⟨0, 0, false, 1⟩ := by
    rw [wordState, hw, hctx]
    rw [List.foldl_cons, step_skip false _ "this" (by decide) (by decide) (by decide) rfl]
    rw [List.foldl_cons, step_skip false _ "is" (by decide) (by decide) (by decide) rfl]
    rw [List.foldl_cons, step_skip false _ "insane" (by decide) (by decide) (by decide) rfl]
    rw [List.foldl_nil]
  have hfull : fullState "This is insane".data = ⟨0, 0, false, 1⟩ := by
    rw [fullState, hws]
    rfl
  rw [analyze_not_blank _ (by decide)]
  show round4 (polarityOf "This is insane".data) = 0
  rw [polarityOf, if_neg (by rw [hfull]; exact lt_irrefl 0), round4_zero]

/-- Polarity of `"This is insane! Thank you!"`: the `!` activates the
slang word and the boost caps the normalized score at 1. -/
theorem analyze_insane_thank :
    (analyze "This is insane! Thank you!").polarity = 1 := by
  have hw : wordsOf "This is insane! Thank you!".data =
      ["this", "is", "insane", "thank", "you"] := by decide
  have hctx : ctxOf "This is insane! Thank you!".data = true := by decide
  have hst : wordState "This is insane! Thank you!".data = ⟨1.4, 2, false, 1⟩ := by
    rw [wordState, hw, hctx]
    rw [List.foldl_cons, step_skip true _ "this" (by decide) (by decide) (by decide) rfl]
    rw [List.foldl_cons, step_skip true _ "is" (by decide) (by decide) (by decide) rfl]
    rw [List.foldl_cons,
      step_score true _ "insane" 0.8 (by decide) (by decide) (by decide) rfl (by norm_num)]
    rw [List.foldl_cons,
      step_score true _ "thank" 0.6 (by decide) (by decide) (by decide) rfl (by norm_num)]
    rw [List.foldl_cons, step_skip true _ "you" (by decide) (by decide) (by decide) rfl]
    rw [List.foldl_nil]
    norm_num
  have hfull : fullState "This is insane! Thank you!".data = ⟨1.4, 2, false, 1⟩ := by
    rw [fullState, hst]
    rfl
  have hcount : List.count '!' "This is insane! Thank you!".data = 2 := by decide
  have hraw : rawScore "This is insane! Thank you!".data = 1.68 := by
    simp only [rawScore, hfull, hcount, eq_false (by decide : ¬('?' ∈ "This is insane! Thank you!".data)),
      false_and, if_false]
    norm_num [min_def]
  have hpol : polarityOf "This is insane! Thank you!".data = 1 := by
    simp only [polarityOf, hfull, hraw]
    norm_num [min_def, max_def]
  rw [analyze_not_blank _ (by decide)]
  show round4 (polarityOf "This is insane! Thank you!".data) = 1
  rw [hpol, round4_one]

/-- C3: a slang-positive token contributes its slang score exactly when
the positive-context signal is on, and otherwise contributes nothing
(state fully unchanged); consequently `"This is insane"` scores strictly
below `"This is insane! Thank you!"`. -/
theorem C3_slang_gating :
    (∀ (ctx : Bool) (st : LoopState) (w : String) (v : ℚ),
      List.lookup w slang_positive = some v →
      (ctx = true → stepToken ctx st w =
        ⟨st.score + (if st.neg then -(v * st.mult) * 0.8 else v * st.mult),
         st.count + 1, false, 1⟩) ∧
      (ctx = false → stepToken ctx st w = st))
    ∧ (analyze "This is insane").polarity < (analyze "This is insane! Thank you!").polarity := by
  constructor
  · intro ctx st w v h
    have hmem : (w, v) ∈ slang_positive := lookup_mem h
    have hside : ∀ p ∈ slang_positive, p.1 ∉ negations ∧
        List.lookup p.1 intensifiers = none ∧ List.lookup p.1 diminishers = none := by
      decide
    have hv : v ≠ 0 := by
      have hv2 : v ∈ slang_positive.map Prod.snd := List.mem_map_of_mem _ hmem
      fin_cases hv2 <;> norm_num
    obtain ⟨hn, hi, hd⟩ := hside (w, v) hmem
    constructor
    · intro hctx
      subst hctx
      apply step_score _ _ _ v hn hi hd _ hv
      unfold baseScore
      rw [h]
      rfl
    · intro hctx
      subst hctx
      apply step_skip _ _ _ hn hi hd
      unfold baseScore
      rw [h]
      rfl
  · rw [analyze_insane, analyze_insane_thank]
    norm_num

/-- C3 witness: the slang word `"insane"` at both context values. -/
theorem C3_slang_gating_witness :
    stepToken true ⟨0, 0, false, 1⟩ "insane" = ⟨0 + 0.8 * 1, 1, false, 1⟩ ∧
    stepToken false ⟨0, 0, false, 1⟩ "insane" = ⟨0, 0, false, 1⟩ :=
  ⟨(C3_slang_gating.1 true ⟨0, 0, false, 1⟩ "insane" 0.8 rfl).1 rfl,
   (C3_slang_gating.1 false ⟨0, 0, false, 1⟩ "insane" 0.8 rfl).2 rfl⟩

/-! ### C7: the two example texts -/

/-- Polarity of the positive example text clamps to 1. -/
theorem analyze_love_example :
    (analyze "I love this product! It\x27s amazing! 😍").polarity = 1 ∧
    (analyze "I love this product! It\x27s amazing! 😍").category = "positive" := by
  have hw : wordsOf "I love this product! It\x27s amazing! 😍".data =
      ["i", "love", "this", "product", "it", "s", "amazing"] := by decide
  have hctx : ctxOf "I love this product! It\x27s amazing! 😍".data = true := by decide
  have hst : wordState "I love this product! It\x27s amazing! 😍".data =
      ⟨1.7, 2, false, 1⟩ := by
    rw [wordState, hw, hctx]
    rw [List.foldl_cons, step_skip true _ "i" (by decide) (by decide) (by decide) rfl]
    rw [List.foldl_cons,
      step_score true _ "love" 0.8 (by decide) (by decide) (by decide) rfl (by norm_num)]
    rw [List.foldl_cons, step_skip true _ "this" (by decide) (by decide) (by decide) rfl]
    rw [List.foldl_cons, step_skip true _ "product" (by decide) (by decide) (by decide) rfl]
    rw [List.foldl_cons, step_skip true _ "it" (by decide) (by decide) (by decide) rfl]
    rw [List.foldl_cons, step_skip true _ "s" (by decide) (by decide) (by decide) rfl]
    rw [List.foldl_cons,
      step_score true _ "amazing" 0.9 (by decide) (by decide) (by decide) rfl (by norm_num)]
    rw [List.foldl_nil]
    norm_num
  have hfull : fullState "I love this product! It\x27s amazing! 😍".data =
      ⟨2.6, 3, false, 1⟩ := by
    rw [fullState, hst]
    show (⟨1.7 + 0.9, 3, false, 1⟩ : LoopState) = _
    norm_num
  have hcount : List.count '!' "I love this product! It\x27s amazing! 😍".data = 2 := by
    decide
  have hraw : rawScore "I love this product! It\x27s amazing! 😍".data = 3.12 := by
    simp only [rawScore, hfull, hcount,
      eq_false (by decide : ¬('?' ∈ "I love this product! It\x27s amazing! 😍".data)),
      false_and, if_false]
    norm_num [min_def]
  have hpol : polarityOf "I love this product! It\x27s amazing! 😍".data = 1 := by
    simp only [polarityOf, hfull, hraw]
    norm_num [min_def, max_def]
  constructor
  · rw [analyze_not_blank _ (by decide)]
    show round4 (polarityOf "I love this product! It\x27s amazing! 😍".data) = 1
    rw [hpol, round4_one]
  · rw [analyze_not_blank _ (by decide)]
    show categoryOf "I love this product! It\x27s amazing! 😍".data = "positive"
    rw [categoryOf, hpol, if_pos (by norm_num)]

/-- Polarity of the negative example text clamps to -1. -/
theorem analyze_terrible_example :
    (analyze "This is terrible. Waste of money. 😡").polarity = -1 ∧
    (analyze "This is terrible. Waste of money. 😡").category = "negative" := by
  have hw : wordsOf "This is terrible. Waste of money. 😡".data =
      ["this", "is", "terrible", "waste", "of", "money"] := by decide
  have hctx : ctxOf "This is terrible. Waste of money. 😡".data = false := by decide
  have hst : wordState "This is terrible. Waste of money. 😡".data =
      ⟨-1.7, 2, false, 1⟩ := by
    rw [wordState, hw, hctx]
    rw [List.foldl_cons, step_skip false _ "this" (by decide) (by decide) (by decide) rfl]
    rw [List.foldl_cons, step_skip false _ "is" (by decide) (by decide) (by decide) rfl]
    rw [List.foldl_cons,
      step_score false _ "terrible" (-0.9) (by decide) (by decide) (by decide) rfl (by norm_num)]
    rw [List.foldl_cons,
      step_score false _ "waste" (-0.8) (by decide) (by decide) (by decide) rfl (by norm_num)]
    rw [List.foldl_cons, step_skip false _ "of" (by decide) (by decide) (by decide) rfl]
    rw [List.foldl_cons, step_skip false _ "money" (by decide) (by decide) (by decide) rfl]
    rw [List.foldl_nil]
    norm_num
  have hfull : fullState "This is terrible. Waste of money. 😡".data =
      ⟨-2.6, 3, false, 1⟩ := by
    rw [fullState, hst]
    show (⟨-1.7 + -0.9, 3, false, 1⟩ : LoopState) = _
    norm_num
  have hcount : List.count '!' "This is terrible. Waste of money. 😡".data = 0 := by decide
  have hraw : rawScore "This is terrible. Waste of money. 😡".data = -2.6 := by
    simp only [rawScore, hfull, hcount, lt_self_iff_false, false_and, if_false,
      eq_false (by decide : ¬('?' ∈ "This is terrible. Waste of money. 😡".data))]
  have hpol : polarityOf "This is terrible. Waste of money. 😡".data = -1 := by
    simp only [polarityOf, hfull, hraw]
    norm_num [min_def, max_def]
  constructor
  · rw [analyze_not_blank _ (by decide)]
    show round4 (polarityOf "This is terrible. Waste of money. 😡".data) = -1
    rw [hpol, round4_eq_self (-10000) (by norm_num)]
  · rw [analyze_not_blank _ (by decide)]
    show categoryOf "This is terrible. Waste of money. 😡".data = "negative"
    rw [categoryOf, hpol, if_neg (by norm_num), if_pos (by norm_num)]

/-- C7: the two documented example texts are classified positive with
polarity above 0.5 and negative with polarity below -0.5. -/
theorem C7_example_texts :
    ((analyze "I love this product! It\x27s amazing! 😍").category = "positive" ∧
      0.5 < (analyze "I love this product! It\x27s amazing! 😍").polarity) ∧
    ((analyze "This is terrible. Waste of money. 😡").category = "negative" ∧
      (analyze "This is terrible. Waste of money. 😡").polarity < -0.5) := by
  refine ⟨⟨analyze_love_example.2, ?_⟩, ⟨analyze_terrible_example.2, ?_⟩⟩
  · rw [analyze_love_example.1]
    norm_num
  · rw [analyze_terrible_example.1]
    norm_num

/-! ### C9: contractions never tokenize -/

/-- The contraction entries of the negation set. -/
def contractions : List String := [
  "don\x27t", "doesn\x27t", "didn\x27t", "can\x27t", "won\x27t", "shouldn\x27t",
  "isn\x27t", "aren\x27t", "wasn\x27t", "weren\x27t", "hasn\x27t", "haven\x27t"]

/-- C9: tokens produced by the word rule never contain an apostrophe,
each contraction entry of the negation set does contain one (hence is
never matched by any token), and `analyze "don't like"` comes out
positive because the negation is lost. -/
theorem C9_contractions_dead :
    (∀ (cs tk : List Char), tk ∈ tokensAux cs [] → Char.ofNat 39 ∉ tk)
    ∧ (∀ w ∈ contractions, w ∈ negations ∧ Char.ofNat 39 ∈ w.data)
    ∧ (∀ w ∈ contractions, ∀ (cs tk : List Char), tk ∈ tokensAux cs [] →
        String.mk tk ≠ w)
    ∧ (analyze "don\x27t like").category = "positive" := by
  have h1 : ∀ (cs tk : List Char), tk ∈ tokensAux cs [] → Char.ofNat 39 ∉ tk := by
    intro cs tk htk hmem
    have h2 := tokensAux_wordChar cs [] (by simp) tk htk (Char.ofNat 39) hmem
    exact absurd h2 (by decide)
  have h2 : ∀ w ∈ contractions, w ∈ negations ∧ Char.ofNat 39 ∈ w.data := by decide
  refine ⟨h1, h2, ?_, ?_⟩
  · intro w hw cs tk htk heq
    apply h1 cs tk htk
    have hdata : tk = w.data := congrArg String.data heq
    rw [hdata]
    exact (h2 w hw).2
  · have hw : wordsOf "don\x27t like".data = ["don", "t", "like"] := by decide
    have hctx : ctxOf "don\x27t like".data = false := by decide
    have hws : wordState "don\x27t like".data = ⟨0 + 0.5 * 1, 1, false, 1⟩ := by
      rw [wordState, hw, hctx]
      rw [List.foldl_cons, step_skip false _ "don" (by decide) (by decide) (by decide) rfl]
      rw [List.foldl_cons, step_skip false _ "t" (by decide) (by decide) (by decide) rfl]
      rw [List.foldl_cons,
        step_score false _ "like" 0.5 (by decide) (by decide) (by decide) rfl (by norm_num)]
      rw [List.foldl_nil]
      rfl
    have hfull : fullState "don\x27t like".data = ⟨0 + 0.5 * 1, 1, false, 1⟩ := by
      rw [fullState, hws]
      rfl
    have hcount : List.count '!' "don\x27t like".data = 0 := by decide
    have hraw : rawScore "don\x27t like".data = 0 + 0.5 * 1 := by
      simp only [rawScore, hfull, hcount, lt_self_iff_false, false_and, if_false,
        eq_false (by decide : ¬('?' ∈ "don\x27t like".data))]
    have hpol : 0.15 < polarityOf "don\x27t like".data := by
      simp only [polarityOf, hfull, hraw]
      norm_num [min_def, max_def]
    rw [analyze_not_blank _ (by decide)]
    show categoryOf "don\x27t like".data = "positive"
    rw [categoryOf, if_pos hpol]

/-- C9 witness: the token `"don"` of `"don't like"` is apostrophe-free
and differs from the negation entry `"don't"`. -/
theorem C9_contractions_dead_witness :
    Char.ofNat 39 ∉ (['d', 'o', 'n'] : List Char) ∧
    String.mk ['d', 'o', 'n'] ≠ "don\x27t" :=
  ⟨C9_contractions_dead.1 ("don\x27t like".data) ['d', 'o', 'n'] (by decide),
   C9_contractions_dead.2.2.1 "don\x27t" (by decide) ("don\x27t like".data)
     ['d', 'o', 'n'] (by decide)⟩

/-! ### C10: the two-code-point heart emoji never matches -/

/-- C10: the red-heart table entry (U+2764 U+FE0F) is listed at +0.8,
but the emoji pass looks up one code point at a time, so no single
character ever equals that key; analyzing the heart emoji alone yields
the all-neutral result with confidence 0.3. -/
theorem C10_heart_never_matches :
    List.lookup "❤️" emoji_positive = some 0.8 ∧
    (∀ c : Char, String.mk [c] ≠ "❤️") ∧
    analyze "❤️" = ⟨0, "neutral", 0.3, 0, "rule_based"⟩ := by
  refine ⟨rfl, ?_, ?_⟩
  · intro c h
    have h2 : ([c] : List Char).length = ("❤️" : String).data.length :=
      congrArg (fun t : String => t.data.length) h
    rw [(by decide : ("❤️" : String).data.length = 2)] at h2
    simp at h2
  · have hw : wordsOf "❤️".data = [] := by decide
    have hws : wordState "❤️".data = ⟨0, 0, false, 1⟩ := by
      rw [wordState, hw, List.foldl_nil]
    have hfull : fullState "❤️".data = ⟨0, 0, false, 1⟩ := by
      rw [fullState, hws]
      rfl
    have hpol : polarityOf "❤️".data = 0 := by
      rw [polarityOf, if_neg (by rw [hfull]; exact lt_irrefl 0)]
    have hcat : categoryOf "❤️".data = "neutral" := by
      rw [categoryOf, hpol, if_neg (by norm_num), if_neg (by norm_num)]
    have hconf : confidenceOf "❤️".data = 0.3 := by
      unfold confidenceOf
      rw [hfull, hw]
      norm_num
    have hsub : subjectivityOf "❤️".data = 0 := by
      unfold subjectivityOf
      rw [hfull, hw]
      norm_num
    rw [analyze_not_blank _ (by decide)]
    rw [hpol, hcat, hconf, hsub, round4_zero, round4_pt3]
